import Mathlib

/-!
Verification development for the `acme-lib` repository (Rust).

We shallowly embed the parts of the code the claims are about:

* `src/error.rs` — the `Error` enum, the `ApiProblem` shape and the
  `From<ureq::Error>` conversion.
* `src/cert.rs` — `create_csr`, the `Certificate` value object and its
  inspection/conversion operations (`valid_days_left`, `certificate_der`,
  `private_key_der`).
* `src/persist.rs` — `PersistKind`, `PersistKey`, its `Display`
  implementation and `path_in`, the in-memory backend (`MemoryPersist`)
  and the file backend (`FilePersist`).

Strings manipulated by the persistence-key and CSR code are modelled as
`List Char` (Rust `String`s of the relevant values are ASCII, so byte
indices and char indices coincide).  External collaborators (OpenSSL,
serde_json, the file system) are modelled as explicit oracle parameters
returning `Option`/`Except`; a Rust `.expect(msg)`/`.unwrap()` on a
failed external call is modelled by the `Outcome.panics msg` outcome.
-/

namespace AcmeLib

/-- Result of running a piece of Rust code that may `panic!`/`expect`:
either the code panics with a message, or it returns a value. -/
inductive Outcome (α : Type) where
  | panics (msg : String)
  | ret (a : α)
  deriving Repr, DecidableEq

/-- Byte vectors (`Vec<u8>`); byte values are never computed with here,
so plain `Nat` entries suffice. -/
abbrev Bytes := List Nat

/-- Modelled from the spec: the ACME problem document — a type, an
optional detail and optional subproblems.  Its defining file
(`src/api.rs`) is not among the given sources; the field names
(`_type`, `detail`, `subproblems`) are taken from its uses in
`src/error.rs` and the shape from the spec's wire-format description.
Subproblem entries are kept opaque. -/
structure ApiProblem where
  _type : String
  detail : Option String
  subproblems : Option (List String)
  deriving Repr, DecidableEq

/-- The library error enum from `src/error.rs`.  Payloads of foreign
error types (`base64::DecodeError`, `serde_json::Error`, `io::Error`)
are opaque to this library and modelled as their message strings. -/
inductive Error where
  | ApiProblem (p : AcmeLib.ApiProblem)
  | Call (s : String)
  | Base64Decode (e : String)
  | Json (e : String)
  | Io (e : String)
  | Other (s : String)
  deriving Repr, DecidableEq

end AcmeLib

namespace AcmeLib.Cert

/-- The characters of the `"DNS:"` prefix produced by
`format!("DNS:{}", e)` in `create_csr`. -/
def dnsTag : List Char := ['D', 'N', 'S', ':']

/-- One element of the alt-name list, `format!("DNS:{}", e)`. -/
def dnsItem (d : List Char) : List Char := dnsTag ++ d

/-- Rust `Vec::join(sep)`: concatenate the elements with `sep` between
consecutive elements. -/
def joinList (sep : List Char) : List (List Char) → List Char
  | [] => []
  | [x] => x
  | x :: y :: xs => x ++ sep ++ joinList sep (y :: xs)

/-- The comma-space separator of `join(", ")`. -/
def sepCS : List Char := [',', ' ']

/-- The string `as_lst` built in `create_csr` before the slice:
`domains.iter().map(|&e| format!("DNS:{}", e)).collect::<Vec<_>>().join(", ")`. -/
def joinedDns (domains : List (List Char)) : List Char :=
  joinList sepCS (domains.map dnsItem)

/-- Model of an OpenSSL `X509Req` as far as the claims are concerned:
the list of extensions added by the builder, each recorded as the
configuration string OpenSSL parses to build it.  `create_csr` pushes
exactly one extension (the Subject Alternative Name). -/
structure X509Req where
  extensions : List (List Char)
  deriving Repr, DecidableEq

/-- Oracle for the fallible external crypto step of `create_csr` that a
claim is about: whether `req_bld.sign(pkey, MessageDigest::sha256())`
succeeds.  The other builder calls (`X509ReqBuilder::new`, `set_pubkey`,
`Stack::new`, `SubjectAlternativeName::build`, `Stack::push`,
`add_extensions`) are also `expect`-wrapped in the source but cannot
fail for the inputs constructed there; they are modelled as total. -/
structure CsrOps where
  signOk : Bool

/-- The panic message of an out-of-bounds string slice, as in
`&as_lst[4..]` on a string shorter than 4 bytes. -/
def sliceMsg : String := "byte index 4 is out of bounds"

/-- Model of `create_csr` from `src/cert.rs` lines 46–76.  The alt-name list is
joined with `", "`, the first four bytes (`"DNS:"`) are sliced off —
panicking if the string is shorter than four bytes — and the remainder
is handed to `SubjectAlternativeName::dns`, which re-prefixes `"DNS:"`
when it renders the extension's configuration string.  Signing with
SHA-256 is `expect("csr_sign")`-wrapped: a signing failure panics.  On
success the function returns `Ok` of the built request. -/
def create_csr (ops : CsrOps) (domains : List (List Char)) :
    Outcome (Except Error X509Req) :=
  let as_lst := joinedDns domains
  if 4 ≤ as_lst.length then
    let sliced := as_lst.drop 4
    let sanConf := dnsTag ++ sliced
    if ops.signOk then
      .ret (.ok ⟨[sanConf]⟩)
    else
      .panics "csr_sign"
  else
    .panics sliceMsg

/-- One entry of an OpenSSL alternative-name configuration list:
leading spaces are stripped and a `"DNS:"` tag is removed, leaving the
DNS identifier (model of `X509V3_parse_list` on one comma-separated
entry). -/
def parseSanEntry (e : List Char) : List Char :=
  let t := e.dropWhile (· = ' ')
  if t.take 4 = dnsTag then t.drop 4 else t

/-- Parse an alternative-name configuration string back into the list
of DNS identifiers: split on commas, then parse each entry. -/
def parseSanConf (conf : List Char) : List (List Char) :=
  (conf.splitOn ',').map parseSanEntry

/-- All alternative names parsed back from a request's extensions. -/
def parsedAltNames (req : X509Req) : List (List Char) :=
  (req.extensions.map parseSanConf).flatten

/-- Model of an OpenSSL `X509` certificate as far as the claims are
concerned: the parsed `not_after` instant, as seconds since the Unix
epoch (UTC).  In the source this instant is obtained by `Display`ing
`x509.not_after()` and re-parsing it with `parse_date`; the composite
is folded into the parse oracle below. -/
structure X509 where
  notAfterUtc : Int
  deriving Repr, DecidableEq

/-- Opaque model of an OpenSSL `PKey<`private`>` handle. -/
structure PKeyModel where
  id : Nat
  deriving Repr, DecidableEq

/-- Oracles for the fallible OpenSSL PEM/DER operations used by the
`Certificate` methods.  `none` means the underlying call fails; the
source wraps every one of these calls in `.expect(...)`. -/
structure PemOps where
  x509FromPem : String → Option X509
  x509ToDer : X509 → Option Bytes
  pkeyFromPem : String → Option PKeyModel
  pkeyToDer : PKeyModel → Option Bytes

/-- The `Certificate` value object from `src/cert.rs`: the PEM private
key and the PEM certificate chain. -/
structure Certificate where
  private_key : String
  certificate : String
  deriving Repr, DecidableEq

/-- Seconds in a day, the divisor of `time::Duration::whole_days`. -/
def secondsPerDay : Int := 86400

/-- Model of `Certificate::valid_days_left` (non-test build; the `cfg!(test)`
short circuit that returns 89 is for the crate's own test certificate
and is not modelled).  The certificate PEM is parsed — `expect("from_pem")`,
panicking on failure — and the whole days between `not_after` and `now`
are computed.  `time::Duration::whole_days` divides the signed number of
seconds by 86400 with Rust integer division, i.e. truncation toward
zero, which `Int.tdiv` models exactly. -/
def Certificate.valid_days_left (ops : PemOps) (now : Int)
    (c : Certificate) : Outcome Int :=
  match ops.x509FromPem c.certificate with
  | none => .panics "from_pem"
  | some x => .ret ((x.notAfterUtc - now).tdiv secondsPerDay)

/-- Model of `Certificate::certificate_der`: parse the certificate PEM
(`expect("from_pem")`) and re-encode as DER (`expect("to_der")`). -/
def Certificate.certificate_der (ops : PemOps) (c : Certificate) :
    Outcome Bytes :=
  match ops.x509FromPem c.certificate with
  | none => .panics "from_pem"
  | some x =>
    match ops.x509ToDer x with
    | none => .panics "to_der"
    | some d => .ret d

/-- Model of `Certificate::private_key_der`: parse the private-key PEM
(`expect("from_pem")`) and re-encode as DER
(`expect("private_key_to_der")`). -/
def Certificate.private_key_der (ops : PemOps) (c : Certificate) :
    Outcome Bytes :=
  match ops.pkeyFromPem c.private_key with
  | none => .panics "from_pem"
  | some k =>
    match ops.pkeyToDer k with
    | none => .panics "private_key_to_der"
    | some d => .ret d

end AcmeLib.Cert

namespace AcmeLib.Persist

/-- The enum `PersistKind` from `src/persist.rs`. -/
inductive PersistKind where
  | AccountPrivateKey
  | PrivateKey
  | Certificate
  deriving Repr, DecidableEq

/-- Model of `PersistKind::name`: the extension token for each kind.  Both
private-key kinds map to `"key"`; certificates map to `"crt"`. -/
def PersistKind.name : PersistKind → List Char
  | .Certificate => ['c', 'r', 't']
  | .PrivateKey => ['k', 'e', 'y']
  | .AccountPrivateKey => ['k', 'e', 'y']

/-- The struct `PersistKey` from `src/persist.rs`: an opaque realm hash (a `u64`;
no arithmetic is performed on it, so `Nat` suffices), a kind, and the
caller-supplied name (field `key` in the source). -/
structure PersistKey where
  realm : Nat
  kind : PersistKind
  key : List Char
  deriving Repr, DecidableEq

/-- Model of `str::replace('.', "_")`: each `'.'` becomes `'_'`. -/
def replaceDot (s : List Char) : List Char :=
  s.map fun c => if c = '.' then '_' else c

/-- Model of `str::replace('*', "STAR")`: each `'*'` becomes the four characters
`STAR`. -/
def replaceStar (s : List Char) : List Char :=
  s.flatMap fun c => if c = '*' then ['S', 'T', 'A', 'R'] else [c]

/-- The sanitized name used by `Display for PersistKey`:
`self.key.replace('.', "_").replace('*', "STAR")`. -/
def sanitize (s : List Char) : List Char :=
  replaceStar (replaceDot s)

/-- The sanitization as the spec words it — "`sanitizedName` replaces
`.` with `_` and `*` with the literal `STAR`" — as a single pass, to be
compared with the source's two sequential `replace` calls. -/
def specSanitize (s : List Char) : List Char :=
  s.flatMap fun c =>
    if c = '.' then ['_']
    else if c = '*' then ['S', 'T', 'A', 'R']
    else [c]

/-- Decimal rendering of a `u64` (Rust's `Display` for unsigned
integers): most significant digit first, single `'0'` for zero. -/
def natDecimal (n : Nat) : List Char :=
  if _h : n < 10 then [Nat.digitChar n]
  else natDecimal (n / 10) ++ [Nat.digitChar (n % 10)]
  decreasing_by
    exact Nat.div_lt_self (by omega) (by omega)

/-- Model of `Display for PersistKey`:
`write!(f, "{}_{}_{}", self.realm, self.kind.name(), sanitized)`. -/
def PersistKey.toDisplay (k : PersistKey) : List Char :=
  natDecimal k.realm ++ '_' :: (k.kind.name ++ '_' :: sanitize k.key)

/-- Model of `Path::set_extension` on a file name, modelled for file names that
do not begin with `'.'` (every name produced here begins with a decimal
digit): if the name contains a `'.'`, everything after the last `'.'`
is replaced by the new extension, otherwise `'.'` and the extension are
appended. -/
def setExtension (p ext : List Char) : List Char :=
  (if '.' ∈ p then ((p.reverse.dropWhile (· ≠ '.')).drop 1).reverse else p)
    ++ '.' :: ext

/-- Model of `PersistKey::path_in`: join the directory with the key's `Display`
string and set the extension to `kind.name()`.  `Path::join` is
modelled as inserting a single separator. -/
def PersistKey.path_in (k : PersistKey) (dir : List Char) : List Char :=
  dir ++ '/' :: setExtension k.toDisplay k.kind.name

/-- The shared backing store of `MemoryPersist`: the `HashMap<String,
Vec<u8>>` behind the mutex, modelled as a map from the key's `Display`
string to the stored bytes. -/
def MemStore := List Char → Option Bytes

/-- Model of `MemoryPersist::put`: insert the bytes under the key's string form
and return `Ok(())` together with the updated store. -/
def memPut (st : MemStore) (k : PersistKey) (v : Bytes) :
    Except Error Unit × MemStore :=
  (.ok (), fun s => if s = k.toDisplay then some v else st s)

/-- Model of `MemoryPersist::get`: look the key's string form up in the store;
a missing entry yields `Ok(None)`. -/
def memGet (st : MemStore) (k : PersistKey) : Except Error (Option Bytes) :=
  .ok (st k.toDisplay)

/-- State of the file system as `FilePersist::get` observes it: for each
path, `none` when opening the file fails (absent file), otherwise the
result of reading it to the end (`Except.error` for an I/O error during
the read). -/
def FsState := List Char → Option (Except String Bytes)

/-- Model of `FilePersist::get`: open the file at `key.path_in(dir)`; any open
failure yields `Ok(None)`; a read failure is propagated as an I/O
error; otherwise the bytes are returned. -/
def fileGet (fs : FsState) (dir : List Char) (k : PersistKey) :
    Except Error (Option Bytes) :=
  match fs (k.path_in dir) with
  | none => .ok none
  | some (.error e) => .error (.Io e)
  | some (.ok v) => .ok (some v)

/-- The file-creation mode selected by the `cfg(unix)` branch of
`FilePersist::put` (lines 154–168 of `src/persist.rs`): the two
private-key kinds open the file with `mode(0o600)`, certificates are
written by `fs::write` with the platform's default permissions
(`none`). -/
def filePutUnixMode : PersistKind → Option Nat
  | .AccountPrivateKey => some 0o600
  | .PrivateKey => some 0o600
  | .Certificate => none

end AcmeLib.Persist

namespace AcmeLib.Req

/-- A `ureq::Response` as consumed by the `From<ureq::Error>`
conversion: its status code and text, its content type, and the body
text yielded by `extract_body` (which swallows read errors and returns
what was captured). -/
structure UreqResponse where
  status : Nat
  statusText : String
  contentType : String
  body : String
  deriving Repr, DecidableEq

/-- The error type `ureq::Error`: either a non-2xx status response, or a transport
failure with no structured body. -/
inductive UreqError where
  | status (code : Nat) (res : UreqResponse)
  | transport (msg : String)
  deriving Repr, DecidableEq

/-- Model of `impl From<ureq::Error> for Error` from `src/error.rs` lines
71–110.  `parse` is the serde_json deserialization oracle for
`ApiProblem` bodies (`Except.error` carries the serde error message). -/
def errorFromUreq (parse : String → Except String ApiProblem) :
    UreqError → Error
  | .transport _ =>
    .ApiProblem
      { _type := "httpReqError"
        detail := some "Transport error"
        subproblems := none }
  | .status _ res =>
    let problem :=
      if res.contentType = "application/problem+json" then
        match parse res.body with
        | .ok p => p
        | .error e =>
          { _type := "problemJsonFail"
            detail := some ("Failed to deserialize application/problem+json ("
              ++ e ++ ") body: " ++ res.body)
            subproblems := none }
      else
        let status := toString res.status ++ " " ++ res.statusText
        { _type := "httpReqError"
          detail := some (status ++ " body: " ++ res.body)
          subproblems := none }
    .ApiProblem problem

end AcmeLib.Req

namespace AcmeLib.Cert

theorem joinList_cons_cons (s x y : List Char) (ys : List (List Char)) :
    joinList s (x :: y :: ys) = x ++ s ++ joinList s (y :: ys) := rfl

theorem joinList_cons_head (s : List Char) (b : Char) (y : List Char)
    (L : List (List Char)) :
    joinList s ((b :: y) :: L) = b :: joinList s (y :: L) := by
  cases L with
  | nil => rfl
  | cons z zs => simp [joinList_cons_cons]

theorem joinList_cons_append (s p x : List Char) (L : List (List Char)) :
    joinList s ((p ++ x) :: L) = p ++ joinList s (x :: L) := by
  induction p with
  | nil => rfl
  | cons c cs ih => simpa [joinList_cons_head] using ih

theorem joinList_two_sep (a b : Char) (x : List Char)
    (xs : List (List Char)) :
    joinList [a, b] (x :: xs) = joinList [a] (x :: xs.map (b :: ·)) := by
  induction xs generalizing x with
  | nil => rfl
  | cons y ys ih =>
    calc joinList [a, b] (x :: y :: ys)
        = x ++ [a, b] ++ joinList [a, b] (y :: ys) := rfl
      _ = x ++ [a, b] ++ joinList [a] (y :: ys.map (b :: ·)) := by rw [ih]
      _ = x ++ [a] ++ (b :: joinList [a] (y :: ys.map (b :: ·))) := by
          simp
      _ = x ++ [a] ++ joinList [a] ((b :: y) :: ys.map (b :: ·)) := by
          rw [joinList_cons_head]
      _ = joinList [a] (x :: (y :: ys).map (b :: ·)) := rfl

theorem splitOn_joinList (a : Char) (L : List (List Char)) (hL : L ≠ [])
    (h : ∀ l ∈ L, a ∉ l) :
    (joinList [a] L).splitOn a = L := by
  induction L with
  | nil => exact absurd rfl hL
  | cons x xs ih =>
    cases xs with
    | nil =>
      show x.splitOnP (· == a) = [x]
      refine List.splitOnP_eq_single _ _ ?_
      intro c hc
      have : c ≠ a := fun he => (h x (by simp)) (he ▸ hc)
      simp [this]
    | cons y ys =>
      have hx : ∀ c ∈ x, ¬((c == a) = true) := by
        intro c hc
        have : c ≠ a := fun he => (h x (by simp)) (he ▸ hc)
        simp [this]
      have hstep : joinList [a] (x :: y :: ys)
          = x ++ a :: joinList [a] (y :: ys) := by
        simp [joinList_cons_cons]
      rw [hstep]
      show (x ++ a :: joinList [a] (y :: ys)).splitOnP (· == a)
          = x :: y :: ys
      rw [List.splitOnP_first _ _ hx a (by simp) _]
      have := ih (by simp) (fun l hl => h l (List.mem_cons_of_mem _ hl))
      simpa [List.splitOn] using this

theorem parseSanEntry_dnsItem (d : List Char) :
    parseSanEntry (dnsItem d) = d := by
  simp [parseSanEntry, dnsItem, dnsTag, List.dropWhile]

theorem parseSanEntry_space_dnsItem (d : List Char) :
    parseSanEntry (' ' :: dnsItem d) = d := by
  simp [parseSanEntry, dnsItem, dnsTag, List.dropWhile]

theorem comma_not_mem_dnsItem (d : List Char) (hd : ',' ∉ d) :
    ',' ∉ dnsItem d := by
  simp [dnsItem, dnsTag]
  exact fun h => hd h

theorem joinedDns_cons (d : List Char) (ds : List (List Char)) :
    joinedDns (d :: ds) = dnsTag ++ joinList sepCS (d :: ds.map dnsItem) := by
  show joinList sepCS (dnsItem d :: ds.map dnsItem) = _
  rw [dnsItem, joinList_cons_append]

theorem four_le_joinedDns_length (d : List Char) (ds : List (List Char)) :
    4 ≤ (joinedDns (d :: ds)).length := by
  rw [joinedDns_cons]
  simp [dnsTag]

/-- For a non-empty domain list the configuration string handed to
OpenSSL — `"DNS:"` re-prefixed onto the sliced join — is exactly the
original comma-space join of the `DNS:`-tagged domains. -/
theorem sanConf_eq_joined (d : List Char) (ds : List (List Char)) :
    dnsTag ++ (joinedDns (d :: ds)).drop 4 = joinedDns (d :: ds) := by
  rw [joinedDns_cons]
  have h4 : dnsTag.length = 4 := rfl
  rw [← h4, List.drop_left]

/-- Parsing the produced SAN configuration string recovers exactly the
original domain list, provided each domain is a DNS identifier (no
commas, no spaces). -/
theorem parseSanConf_roundtrip (d : List Char) (ds : List (List Char))
    (hdns : ∀ x ∈ d :: ds, ',' ∉ x ∧ ' ' ∉ x) :
    parseSanConf (joinedDns (d :: ds)) = d :: ds := by
  have hexp : joinedDns (d :: ds)
      = joinList [','] (dnsItem d :: (ds.map dnsItem).map (' ' :: ·)) := by
    show joinList sepCS (dnsItem d :: ds.map dnsItem) = _
    exact joinList_two_sep ',' ' ' (dnsItem d) (ds.map dnsItem)
  rw [parseSanConf, hexp]
  rw [splitOn_joinList]
  · simp only [List.map_cons, parseSanEntry_dnsItem, List.map_map]
    congr 1
    have hpt : ∀ x ∈ ds, (parseSanEntry ∘ (fun c => ' ' :: c) ∘ dnsItem) x = x :=
      fun x _ => parseSanEntry_space_dnsItem x
    simpa using List.map_congr_left hpt
  · simp
  · intro l hl
    rcases List.mem_cons.mp hl with h | h
    · exact h ▸ comma_not_mem_dnsItem d (hdns d (by simp)).1
    · rcases List.mem_map.mp h with ⟨e, he, rfl⟩
      rcases List.mem_map.mp he with ⟨x, hx, rfl⟩
      have hc : ',' ∉ dnsItem x :=
        comma_not_mem_dnsItem x (hdns x (List.mem_cons_of_mem _ hx)).1
      simp only [List.mem_cons]
      rintro (h | h)
      · exact absurd h.symm (by decide)
      · exact hc h

/-- C1: for every non-empty list of DNS identifiers `D` (no commas or
spaces in an identifier) and every key for which signing succeeds,
`create_csr` returns a request carrying exactly one Subject Alternative
Name extension, and the alternative-name list parsed back from the
request equals `D` as a set. -/
theorem c1_create_csr_san_roundtrip (ops : CsrOps) (D : List (List Char))
    (hsign : ops.signOk = true) (hne : D ≠ [])
    (hdns : ∀ x ∈ D, ',' ∉ x ∧ ' ' ∉ x) :
    ∃ req : X509Req, create_csr ops D = .ret (.ok req) ∧
      req.extensions.length = 1 ∧
      ∀ x, x ∈ parsedAltNames req ↔ x ∈ D := by
  obtain ⟨d, ds, rfl⟩ : ∃ d ds, D = d :: ds := by
    cases D with
    | nil => exact absurd rfl hne
    | cons d ds => exact ⟨d, ds, rfl⟩
  have h4 := four_le_joinedDns_length d ds
  refine ⟨⟨[dnsTag ++ (joinedDns (d :: ds)).drop 4]⟩, ?_, rfl, ?_⟩
  · simp [create_csr, h4, hsign]
  · intro x
    have hparsed : parsedAltNames ⟨[dnsTag ++ (joinedDns (d :: ds)).drop 4]⟩
        = d :: ds := by
      show ([(dnsTag ++ (joinedDns (d :: ds)).drop 4)].map parseSanConf).flatten
          = d :: ds
      rw [List.map_cons, List.map_nil, sanConf_eq_joined,
        parseSanConf_roundtrip d ds hdns]
      simp
    rw [hparsed]

/-- Witness for C1 at `D = ["a"]`. -/
theorem c1_create_csr_san_roundtrip_witness :
    ∃ req : X509Req, create_csr ⟨true⟩ [['a']] = .ret (.ok req) ∧
      req.extensions.length = 1 ∧
      ∀ x, x ∈ parsedAltNames req ↔ x ∈ [['a']] :=
  c1_create_csr_san_roundtrip ⟨true⟩ [['a']] rfl (by decide) (by decide)

/-- C9: called with an empty domain list, `create_csr` panics at the
byte-slice `as_lst[4..]` (the joined string is empty) instead of
returning an error; for every non-empty domain list that slicing step
cannot panic (the result may still be a `csr_sign` panic, but never the
slice panic). -/
theorem c9_create_csr_empty_slice (ops : CsrOps) (D : List (List Char))
    (hne : D ≠ []) :
    create_csr ops [] = .panics sliceMsg ∧
      create_csr ops D ≠ .panics sliceMsg := by
  constructor
  · rfl
  · obtain ⟨d, ds, rfl⟩ : ∃ d ds, D = d :: ds := by
      cases D with
      | nil => exact absurd rfl hne
      | cons d ds => exact ⟨d, ds, rfl⟩
    have h4 := four_le_joinedDns_length d ds
    simp only [create_csr, if_pos h4]
    cases hx : ops.signOk with
    | false =>
      simp only [Bool.false_eq_true, if_false]
      intro hcontra
      have : "csr_sign" = sliceMsg := by injection hcontra
      exact absurd this (by decide)
    | true => simp

/-- Witness for C9 at `D = ["a"]`. -/
theorem c9_create_csr_empty_slice_witness :
    create_csr ⟨true⟩ [] = .panics sliceMsg ∧
      create_csr ⟨true⟩ [['a']] ≠ .panics sliceMsg :=
  c9_create_csr_empty_slice ⟨true⟩ [['a']] (by decide)

/-- C3 counterexample: when signing fails, `create_csr` does not return
an error value of any kind — it panics with `csr_sign` (the source
wraps the call in `.expect`); likewise a certificate whose PEM does not
parse makes `valid_days_left` panic with `from_pem` instead of
returning an error.  (The library's `Error` enum has no crypto variant
at all.) -/
theorem c3_crypto_failure_counterexample :
    create_csr ⟨false⟩ [['a']] = .panics "csr_sign" ∧
    Certificate.valid_days_left
      ⟨fun _ => none, fun _ => none, fun _ => none, fun _ => none⟩ 0
      ⟨"k", "c"⟩ = .panics "from_pem" :=
  ⟨rfl, rfl⟩

/-- C3 (amended): cryptographic primitive failures are surfaced as
panics (via `.expect`), not as typed error returns: if CSR signing
fails, `create_csr` panics with `csr_sign`, and if certificate/key PEM
parsing fails, `valid_days_left`, `certificate_der` and
`private_key_der` panic with `from_pem`. -/
theorem c3_amended_crypto_failures_panic
    (ops : CsrOps) (D : List (List Char)) (hne : D ≠ [])
    (hs : ops.signOk = false)
    (pops : PemOps) (c : Certificate) (now : Int)
    (hx : pops.x509FromPem c.certificate = none)
    (hk : pops.pkeyFromPem c.private_key = none) :
    create_csr ops D = .panics "csr_sign" ∧
    Certificate.valid_days_left pops now c = .panics "from_pem" ∧
    Certificate.certificate_der pops c = .panics "from_pem" ∧
    Certificate.private_key_der pops c = .panics "from_pem" := by
  obtain ⟨d, ds, rfl⟩ : ∃ d ds, D = d :: ds := by
    cases D with
    | nil => exact absurd rfl hne
    | cons d ds => exact ⟨d, ds, rfl⟩
  have h4 := four_le_joinedDns_length d ds
  refine ⟨?_, ?_, ?_, ?_⟩
  · simp [create_csr, h4, hs]
  · simp [Certificate.valid_days_left, hx]
  · simp [Certificate.certificate_der, hx]
  · simp [Certificate.private_key_der, hk]

/-- Witness for the amended C3 at concrete failing oracles. -/
theorem c3_amended_crypto_failures_panic_witness :
    create_csr ⟨false⟩ [['a']] = .panics "csr_sign" ∧
    Certificate.valid_days_left
      ⟨fun _ => none, fun _ => none, fun _ => none, fun _ => none⟩ 0
      ⟨"k", "c"⟩ = .panics "from_pem" ∧
    Certificate.certificate_der
      ⟨fun _ => none, fun _ => none, fun _ => none, fun _ => none⟩
      ⟨"k", "c"⟩ = .panics "from_pem" ∧
    Certificate.private_key_der
      ⟨fun _ => none, fun _ => none, fun _ => none, fun _ => none⟩
      ⟨"k", "c"⟩ = .panics "from_pem" :=
  c3_amended_crypto_failures_panic ⟨false⟩ [['a']] (by decide) rfl
    ⟨fun _ => none, fun _ => none, fun _ => none, fun _ => none⟩
    ⟨"k", "c"⟩ 0 rfl rfl

/-- C4 counterexample: a certificate that expired one hour before
`now` is already expired, yet `valid_days_left` returns `0`, which is
not negative — truncation toward zero maps every expiry of less than
one whole day to `0`. -/
theorem c4_expired_not_negative_counterexample :
    ((-3600 : Int) < 0) ∧
    Certificate.valid_days_left
      ⟨fun _ => some ⟨-3600⟩, fun _ => none, fun _ => none, fun _ => none⟩
      0 ⟨"k", "c"⟩ = .ret 0 ∧
    ¬ ((0 : Int) < 0) :=
  ⟨by decide, rfl, by decide⟩

/-- C4 (amended): for a certificate whose `not valid after` lies
exactly 89 days plus a few hours after `now`, `valid_days_left`
returns 89 (whole-day truncation toward zero, not rounding); for an
already-expired certificate the result is nonpositive, it is exactly 0
for every certificate expired by less than one whole day, and it is
strictly negative once the certificate has been expired for at least
one whole day. -/
theorem c4_amended_valid_days_left
    (pops : PemOps) (c : Certificate) (now T : Int)
    (hp : pops.x509FromPem c.certificate = some ⟨T⟩) :
    (∀ h : Int, 0 < h → h < 86400 → T = now + 89 * 86400 + h →
      Certificate.valid_days_left pops now c = .ret 89) ∧
    (T < now →
      ∃ v : Int, Certificate.valid_days_left pops now c = .ret v ∧ v ≤ 0) ∧
    (now - 86400 < T → T < now →
      Certificate.valid_days_left pops now c = .ret 0) ∧
    (T ≤ now - 86400 →
      ∃ v : Int, Certificate.valid_days_left pops now c = .ret v ∧ v < 0) := by
  have heq : Certificate.valid_days_left pops now c
      = .ret ((T - now).tdiv 86400) := by
    simp [Certificate.valid_days_left, hp, secondsPerDay]
  refine ⟨?_, ?_, ?_, ?_⟩
  · intro h h0 h24 hT
    rw [heq]
    have hval : (T - now).tdiv 86400 = 89 := by
      have hnn : (0 : Int) ≤ T - now := by omega
      rw [Int.tdiv_eq_ediv hnn (by norm_num)]
      omega
    rw [hval]
  · intro hlt
    refine ⟨(T - now).tdiv 86400, heq, ?_⟩
    have h1 : (T - now).tdiv 86400 = -((now - T).tdiv 86400) := by
      rw [← Int.neg_tdiv]
      congr 1
      omega
    have h2 : 0 ≤ (now - T).tdiv 86400 :=
      Int.tdiv_nonneg (by omega) (by norm_num)
    omega
  · intro hgt hlt
    rw [heq]
    have h1 : (T - now).tdiv 86400 = -((now - T).tdiv 86400) := by
      rw [← Int.neg_tdiv]
      congr 1
      omega
    have h2 : (now - T).tdiv 86400 = 0 :=
      Int.tdiv_eq_zero_of_lt (by omega) (by omega)
    rw [h1, h2]
    rfl
  · intro hle
    refine ⟨(T - now).tdiv 86400, heq, ?_⟩
    have h1 : (T - now).tdiv 86400 = -((now - T).tdiv 86400) := by
      rw [← Int.neg_tdiv]
      congr 1
      omega
    have h2 : 1 ≤ (now - T).tdiv 86400 := by
      rw [Int.tdiv_eq_ediv (by omega) (by norm_num)]
      omega
    omega

/-- Witness for the amended C4: `not valid after` two hours past the
89-day mark. -/
theorem c4_amended_valid_days_left_witness :
    (∀ h : Int, 0 < h → h < 86400 →
      (89 * 86400 + 7200 : Int) = 0 + 89 * 86400 + h →
      Certificate.valid_days_left
        ⟨fun _ => some ⟨89 * 86400 + 7200⟩, fun _ => none, fun _ => none,
          fun _ => none⟩ 0 ⟨"k", "c"⟩ = .ret 89) ∧
    ((89 * 86400 + 7200 : Int) < 0 →
      ∃ v : Int, Certificate.valid_days_left
        ⟨fun _ => some ⟨89 * 86400 + 7200⟩, fun _ => none, fun _ => none,
          fun _ => none⟩ 0 ⟨"k", "c"⟩ = .ret v ∧ v ≤ 0) ∧
    ((0 : Int) - 86400 < 89 * 86400 + 7200 → (89 * 86400 + 7200 : Int) < 0 →
      Certificate.valid_days_left
        ⟨fun _ => some ⟨89 * 86400 + 7200⟩, fun _ => none, fun _ => none,
          fun _ => none⟩ 0 ⟨"k", "c"⟩ = .ret 0) ∧
    ((89 * 86400 + 7200 : Int) ≤ 0 - 86400 →
      ∃ v : Int, Certificate.valid_days_left
        ⟨fun _ => some ⟨89 * 86400 + 7200⟩, fun _ => none, fun _ => none,
          fun _ => none⟩ 0 ⟨"k", "c"⟩ = .ret v ∧ v < 0) :=
  c4_amended_valid_days_left
    ⟨fun _ => some ⟨89 * 86400 + 7200⟩, fun _ => none, fun _ => none,
      fun _ => none⟩ ⟨"k", "c"⟩ 0 (89 * 86400 + 7200) rfl

end AcmeLib.Cert

namespace AcmeLib.Req

/-- C5: the conversion of a failed HTTP call into the library error
type always yields `Error::ApiProblem`: every converted `ureq::Error`
is an `ApiProblem`; a status response with content type
`application/problem+json` whose body deserializes has exactly that
deserialized problem carried; and a transport failure yields an
`ApiProblem` (type `httpReqError`, detail `Transport error`) rather
than a distinct variant. -/
theorem c5_error_from_ureq_normalizes
    (parse : String → Except String ApiProblem) (e : UreqError)
    (code : Nat) (res : UreqResponse) (m : String) :
    (∃ p, errorFromUreq parse e = .ApiProblem p) ∧
    (res.contentType = "application/problem+json" →
      ∀ p, parse res.body = .ok p →
        errorFromUreq parse (.status code res) = .ApiProblem p) ∧
    errorFromUreq parse (.transport m)
      = .ApiProblem ⟨"httpReqError", some "Transport error", none⟩ := by
  refine ⟨?_, ?_, rfl⟩
  · cases e with
    | transport m' => exact ⟨_, rfl⟩
    | status c' r' => exact ⟨_, rfl⟩
  · intro hct p hp
    simp [errorFromUreq, hct, hp]

/-- Witness for C5: a concrete problem+json response and a concrete
transport failure. -/
theorem c5_error_from_ureq_normalizes_witness :
    errorFromUreq (fun _ => .ok ⟨"urn:acme:badNonce", some "stale", none⟩)
      (.status 400 ⟨400, "Bad Request", "application/problem+json", "null"⟩)
      = .ApiProblem ⟨"urn:acme:badNonce", some "stale", none⟩ ∧
    errorFromUreq (fun _ => .ok ⟨"urn:acme:badNonce", some "stale", none⟩)
      (.transport "connection reset")
      = .ApiProblem ⟨"httpReqError", some "Transport error", none⟩ :=
  ⟨(c5_error_from_ureq_normalizes
      (fun _ => .ok ⟨"urn:acme:badNonce", some "stale", none⟩)
      (.transport "x") 400
      ⟨400, "Bad Request", "application/problem+json", "null"⟩
      "connection reset").2.1 rfl _ rfl,
   (c5_error_from_ureq_normalizes
      (fun _ => .ok ⟨"urn:acme:badNonce", some "stale", none⟩)
      (.transport "x") 400
      ⟨400, "Bad Request", "application/problem+json", "null"⟩
      "connection reset").2.2⟩

end AcmeLib.Req

namespace AcmeLib.Persist

theorem natDecimal_ne_nil (n : Nat) : natDecimal n ≠ [] := by
  rw [natDecimal]
  split <;> simp

theorem natDecimal_of_lt (n : Nat) (h : n < 10) :
    natDecimal n = [Nat.digitChar n] := by
  rw [natDecimal, dif_pos h]

theorem natDecimal_of_ge (n : Nat) (h : ¬n < 10) :
    natDecimal n = natDecimal (n / 10) ++ [Nat.digitChar (n % 10)] := by
  rw [natDecimal, dif_neg h]

theorem digitChar_isDigit_fin :
    ∀ a : Fin 10, (Nat.digitChar a.val).isDigit = true := by decide

theorem digitChar_inj_fin :
    ∀ a b : Fin 10, Nat.digitChar a.val = Nat.digitChar b.val → a = b := by
  decide

theorem digitChar_inj_of_lt (a b : Nat) (ha : a < 10) (hb : b < 10)
    (h : Nat.digitChar a = Nat.digitChar b) : a = b :=
  congrArg Fin.val (digitChar_inj_fin ⟨a, ha⟩ ⟨b, hb⟩ h)

theorem natDecimal_all_digit (n : Nat) :
    ∀ c ∈ natDecimal n, c.isDigit = true := by
  induction n using Nat.strong_induction_on with
  | _ n ih =>
    by_cases h : n < 10
    · rw [natDecimal, dif_pos h]
      intro c hc
      rw [List.mem_singleton] at hc
      subst hc
      exact digitChar_isDigit_fin ⟨n, h⟩
    · rw [natDecimal, dif_neg h]
      intro c hc
      rcases List.mem_append.mp hc with h1 | h2
      · exact ih (n / 10) (Nat.div_lt_self (by omega) (by omega)) c h1
      · rw [List.mem_singleton] at h2
        subst h2
        exact digitChar_isDigit_fin ⟨n % 10, Nat.mod_lt n (by omega)⟩

theorem underscore_not_mem_natDecimal (n : Nat) : '_' ∉ natDecimal n :=
  fun h => absurd (natDecimal_all_digit n '_' h) (by decide)

theorem dot_not_mem_natDecimal (n : Nat) : '.' ∉ natDecimal n :=
  fun h => absurd (natDecimal_all_digit n '.' h) (by decide)

theorem natDecimal_inj (a : Nat) :
    ∀ b : Nat, natDecimal a = natDecimal b → a = b := by
  induction a using Nat.strong_induction_on with
  | _ a ih =>
    intro b h
    by_cases ha : a < 10 <;> by_cases hb : b < 10
    · rw [natDecimal_of_lt a ha, natDecimal_of_lt b hb] at h
      exact digitChar_inj_of_lt a b ha hb (by simpa using h)
    · rw [natDecimal_of_lt a ha, natDecimal_of_ge b hb] at h
      have hlen := congrArg List.length h
      simp only [List.length_append, List.length_cons, List.length_nil]
        at hlen
      have h0 : (natDecimal (b / 10)).length = 0 := by omega
      exact absurd (List.length_eq_zero.mp h0) (natDecimal_ne_nil (b / 10))
    · rw [natDecimal_of_ge a ha, natDecimal_of_lt b hb] at h
      have hlen := congrArg List.length h
      simp only [List.length_append, List.length_cons, List.length_nil]
        at hlen
      have h0 : (natDecimal (a / 10)).length = 0 := by omega
      exact absurd (List.length_eq_zero.mp h0) (natDecimal_ne_nil (a / 10))
    · rw [natDecimal_of_ge a ha, natDecimal_of_ge b hb] at h
      have h' := congrArg List.reverse h
      simp only [List.reverse_append, List.reverse_cons, List.reverse_nil,
        List.nil_append, List.cons_append, List.cons.injEq] at h'
      have hmod : a % 10 = b % 10 :=
        digitChar_inj_of_lt _ _ (Nat.mod_lt a (by omega))
          (Nat.mod_lt b (by omega)) h'.1
      have hdiv : a / 10 = b / 10 :=
        ih (a / 10) (Nat.div_lt_self (by omega) (by omega)) (b / 10)
          (List.reverse_injective h'.2)
      omega

theorem append_sep_inj {sep : Char} {A1 B1 A2 B2 : List Char}
    (h1 : sep ∉ A1) (h2 : sep ∉ A2)
    (he : A1 ++ sep :: B1 = A2 ++ sep :: B2) : A1 = A2 ∧ B1 = B2 := by
  induction A1 generalizing A2 with
  | nil =>
    cases A2 with
    | nil => simpa using he
    | cons d ds =>
      simp only [List.nil_append, List.cons_append, List.cons.injEq] at he
      exfalso
      apply h2
      rw [he.1]
      exact List.mem_cons_self d ds
  | cons c cs ih =>
    cases A2 with
    | nil =>
      simp only [List.nil_append, List.cons_append, List.cons.injEq] at he
      exfalso
      apply h1
      rw [← he.1]
      exact List.mem_cons_self c cs
    | cons d ds =>
      simp only [List.cons_append, List.cons.injEq] at he
      obtain ⟨rfl, he2⟩ := he
      have hr := ih (fun hm => h1 (List.mem_cons_of_mem _ hm))
        (fun hm => h2 (List.mem_cons_of_mem _ hm)) he2
      exact ⟨by rw [hr.1], hr.2⟩

theorem kindName_no_underscore (k : PersistKind) : '_' ∉ k.name := by
  cases k <;> decide

theorem kindName_no_dot (k : PersistKind) : '.' ∉ k.name := by
  cases k <;> decide

theorem dot_not_mem_sanitize (s : List Char) : '.' ∉ sanitize s := by
  intro h
  unfold sanitize replaceStar at h
  rcases List.mem_flatMap.mp h with ⟨c, hc, hmem⟩
  by_cases hstar : c = '*'
  · rw [if_pos hstar] at hmem
    exact absurd hmem (by decide)
  · rw [if_neg hstar, List.mem_singleton] at hmem
    subst hmem
    unfold replaceDot at hc
    rcases List.mem_map.mp hc with ⟨c0, _, hc0⟩
    by_cases hd : c0 = '.'
    · rw [if_pos hd] at hc0
      exact absurd hc0 (by decide)
    · rw [if_neg hd] at hc0
      exact hd hc0

theorem dot_not_mem_toDisplay (k : PersistKey) : '.' ∉ k.toDisplay := by
  unfold PersistKey.toDisplay
  intro h
  simp only [List.mem_append, List.mem_cons] at h
  rcases h with h | h | h | h | h
  · exact dot_not_mem_natDecimal _ h
  · exact absurd h (by decide)
  · exact kindName_no_dot _ h
  · exact absurd h (by decide)
  · exact dot_not_mem_sanitize _ h

theorem setExtension_no_dot (p ext : List Char) (h : '.' ∉ p) :
    setExtension p ext = p ++ '.' :: ext := by
  unfold setExtension
  rw [if_neg h]

theorem sanitize_eq_specSanitize (s : List Char) :
    sanitize s = specSanitize s := by
  induction s with
  | nil => rfl
  | cons c cs ih =>
    have hexp : sanitize (c :: cs)
        = (if (if c = '.' then '_' else c) = '*' then ['S', 'T', 'A', 'R']
            else [if c = '.' then '_' else c]) ++ sanitize cs := by
      simp [sanitize, replaceDot, replaceStar]
    have hspec : specSanitize (c :: cs)
        = (if c = '.' then ['_']
            else if c = '*' then ['S', 'T', 'A', 'R'] else [c])
          ++ specSanitize cs := by
      simp [specSanitize]
    rw [hexp, hspec, ih]
    congr 1
    by_cases h1 : c = '.'
    · subst h1
      decide
    · by_cases h2 : c = '*'
      · subst h2
        decide
      · simp only [if_neg h1]

/-- C2 counterexample: two `PersistKey`s that differ in kind —
`AccountPrivateKey` versus `PrivateKey` — produce the same string form
(`PersistKind::name` maps both to `"key"`), so equal string forms do
not force equal kinds. -/
theorem c2_display_kind_collision_counterexample :
    PersistKey.toDisplay ⟨1, .AccountPrivateKey, ['a']⟩
      = PersistKey.toDisplay ⟨1, .PrivateKey, ['a']⟩ ∧
    PersistKind.AccountPrivateKey ≠ PersistKind.PrivateKey :=
  ⟨rfl, by decide⟩

/-- C2 (amended): equal string forms force equal realms, equal kind
extension tokens (`kind.name()`), and equal sanitized names — but not
equal kinds, because `PersistKind::name` maps both `AccountPrivateKey`
and `PrivateKey` to `"key"`. -/
theorem c2_amended_display_injective (k1 k2 : PersistKey)
    (h : k1.toDisplay = k2.toDisplay) :
    k1.realm = k2.realm ∧ k1.kind.name = k2.kind.name ∧
      sanitize k1.key = sanitize k2.key := by
  unfold PersistKey.toDisplay at h
  have hsplit1 := append_sep_inj (underscore_not_mem_natDecimal k1.realm)
    (underscore_not_mem_natDecimal k2.realm) h
  have hrealm := natDecimal_inj k1.realm k2.realm hsplit1.1
  have hsplit2 := append_sep_inj (kindName_no_underscore k1.kind)
    (kindName_no_underscore k2.kind) hsplit1.2
  exact ⟨hrealm, hsplit2.1, hsplit2.2⟩

/-- Witness for the amended C2: the two key kinds with the same realm
and name have equal string forms and indeed agree on realm, extension
token, and sanitized name. -/
theorem c2_amended_display_injective_witness :
    (⟨1, .AccountPrivateKey, ['a']⟩ : PersistKey).realm
      = (⟨1, .PrivateKey, ['a']⟩ : PersistKey).realm ∧
    (⟨1, .AccountPrivateKey, ['a']⟩ : PersistKey).kind.name
      = (⟨1, .PrivateKey, ['a']⟩ : PersistKey).kind.name ∧
    sanitize (⟨1, .AccountPrivateKey, ['a']⟩ : PersistKey).key
      = sanitize (⟨1, .PrivateKey, ['a']⟩ : PersistKey).key :=
  c2_amended_display_injective ⟨1, .AccountPrivateKey, ['a']⟩
    ⟨1, .PrivateKey, ['a']⟩ rfl

/-- C6: the durable backend stores a key's value at
`<dir>/<realmDecimal>_<kindExtension>_<sanitizedName>.<ext>`, where the
kind extension and `ext` are the same token — `key` for the two
private-key kinds, `crt` for certificates — and the sanitized name is
the caller name with `.` replaced by `_` and `*` by `STAR` (the
source's two sequential replaces coincide with the spec's single-pass
substitution). -/
theorem c6_file_persist_path (k : PersistKey) (dir : List Char) :
    k.path_in dir = dir ++ '/' ::
      (natDecimal k.realm ++ '_' :: (k.kind.name ++ '_' :: sanitize k.key)
        ++ '.' :: k.kind.name) ∧
    PersistKind.name .AccountPrivateKey = ['k', 'e', 'y'] ∧
    PersistKind.name .PrivateKey = ['k', 'e', 'y'] ∧
    PersistKind.name .Certificate = ['c', 'r', 't'] ∧
    sanitize k.key = specSanitize k.key := by
  refine ⟨?_, rfl, rfl, rfl, sanitize_eq_specSanitize k.key⟩
  unfold PersistKey.path_in
  rw [setExtension_no_dot _ _ (dot_not_mem_toDisplay k)]
  rfl

/-- C7: a key whose file is absent from the durable backend's
directory yields a successful "absent" result from `FilePersist::get`,
not a failure. -/
theorem c7_file_get_absent (fs : FsState) (dir : List Char)
    (k : PersistKey) (h : fs (k.path_in dir) = none) :
    fileGet fs dir k = .ok none := by
  unfold fileGet
  rw [h]

/-- Witness for C7: the empty file system. -/
theorem c7_file_get_absent_witness :
    fileGet (fun _ => none) ['t', 'm', 'p'] ⟨1, .Certificate, ['a']⟩
      = .ok none :=
  c7_file_get_absent (fun _ => none) ['t', 'm', 'p']
    ⟨1, .Certificate, ['a']⟩ rfl

/-- C8: the mode selection of the `cfg(unix)` branch of
`FilePersist::put`: both private-key kinds open the file with
permissions `0o600`, certificates are written with default
permissions.  (See RESULTS: the branch as written does not compile —
it calls the nonexistent `PersistKey::path_from` and uses `write_all`
without importing `std::io::Write` — so this theorem captures the
mode logic the branch expresses.) -/
theorem c8_unix_put_key_modes :
    filePutUnixMode .AccountPrivateKey = some 0o600 ∧
    filePutUnixMode .PrivateKey = some 0o600 ∧
    filePutUnixMode .Certificate = none :=
  ⟨rfl, rfl, rfl⟩

/-- C10: for the in-memory backend, `get` after `put` round-trips:
after `put k v` succeeds, `get` returns the stored bytes for every key
with the same string form as `k`, and the value stored under every key
with a different string form is unchanged. -/
theorem c10_memory_put_get (st : MemStore) (k k1 k2 : PersistKey)
    (v : Bytes) (h1 : k1.toDisplay = k.toDisplay)
    (h2 : k2.toDisplay ≠ k.toDisplay) :
    (memPut st k v).1 = .ok () ∧
    memGet (memPut st k v).2 k1 = .ok (some v) ∧
    memGet (memPut st k v).2 k2 = memGet st k2 := by
  refine ⟨rfl, ?_, ?_⟩
  · simp [memGet, memPut, h1]
  · simp [memGet, memPut, h2]

/-- Witness for C10: a private-key entry is stored and read back, and
a certificate entry with a different string form is untouched. -/
theorem c10_memory_put_get_witness :
    (memPut (fun _ => none) ⟨1, .PrivateKey, ['a']⟩ [7]).1 = .ok () ∧
    memGet (memPut (fun _ => none) ⟨1, .PrivateKey, ['a']⟩ [7]).2
      ⟨1, .PrivateKey, ['a']⟩ = .ok (some [7]) ∧
    memGet (memPut (fun _ => none) ⟨1, .PrivateKey, ['a']⟩ [7]).2
      ⟨1, .Certificate, ['a']⟩
      = memGet (fun _ => none) ⟨1, .Certificate, ['a']⟩ :=
  c10_memory_put_get (fun _ => none) ⟨1, .PrivateKey, ['a']⟩
    ⟨1, .PrivateKey, ['a']⟩ ⟨1, .Certificate, ['a']⟩ [7] rfl
    (by
      intro heq
      unfold PersistKey.toDisplay at heq
      have htail := List.append_cancel_left heq
      exact absurd htail (by decide))

end AcmeLib.Persist
